import Mathlib

/-!
Verification of the PolishTrainsGTFS realtime generator against its
natural-language specification.  The Go sources are shallowly embedded:
machine integers become `Nat`/`Int` with explicit `% 2^w` where overflow can
occur, Go maps with zero-value defaults become total functions, fallible code
returns `Except`/`Option`, and effectful file writing is modelled as a trace
of path-level operations.
-/

namespace PolishTrains

/-! ## time2.Date (polish_trains_gtfs/realtime/util/time2/date.go)

`Date` is `{Y uint16; M, D uint8}`.  The year is modelled as a `Nat` together
with the `uint16` range invariant `Y < 2^16`; increments and decrements wrap
modulo `2^16` exactly as Go's `uint16` arithmetic does. -/

structure Date where
  Y : Nat
  M : Nat
  D : Nat
deriving DecidableEq, Repr

/-- Embeds `IsLeap`: divisible by 4, and not by 100 unless also by 400. -/
def IsLeap (y : Nat) : Bool :=
  y % 4 == 0 && (y % 100 != 0 || y % 400 == 0)

/-- Embeds `DaysInMonth`. Returns 0 for out-of-range months, like the Go code. -/
def DaysInMonth (y : Nat) (m : Nat) : Nat :=
  if m = 1 ∨ m = 3 ∨ m = 5 ∨ m = 7 ∨ m = 8 ∨ m = 10 ∨ m = 12 then 31
  else if m = 4 ∨ m = 6 ∨ m = 9 ∨ m = 11 then 30
  else if m = 2 then (if IsLeap y then 29 else 28)
  else 0

/-- Embeds `Date.IsValid`. -/
def Date.IsValid (d : Date) : Bool :=
  decide (1 ≤ d.M) && decide (d.M ≤ 12) && decide (1 ≤ d.D) &&
    decide (d.D ≤ DaysInMonth d.Y d.M)

/-- The `uint16` range invariant carried by every Go `Date` value. -/
def Date.InRange (d : Date) : Prop := d.Y < 65536

/-- Embeds `Date.Next`.  `d.Y + 1` wraps modulo `2^16` (Go `uint16`). -/
def Date.Next (d : Date) : Date :=
  if d.M = 12 ∧ d.D = 31 then ⟨(d.Y + 1) % 65536, 1, 1⟩
  else if d.D = DaysInMonth d.Y d.M then ⟨d.Y, d.M + 1, 1⟩
  else ⟨d.Y, d.M, d.D + 1⟩

/-- Embeds `Date.Previous`.  `d.Y - 1` wraps modulo `2^16` (Go `uint16`). -/
def Date.Previous (d : Date) : Date :=
  if d.M = 1 ∧ d.D = 1 then ⟨(d.Y + 65535) % 65536, 12, 31⟩
  else if d.D = 1 then ⟨d.Y, d.M - 1, DaysInMonth d.Y (d.M - 1)⟩
  else ⟨d.Y, d.M, d.D - 1⟩

/-- The Go `for range delta` loop: apply `f` to `d`, `n` times. -/
def iterDate (f : Date → Date) : Nat → Date → Date
  | 0, d => d
  | n + 1, d => f (iterDate f n d)

/-- Embeds `Date.Shifted`: sign-directed repeated successor/predecessor. -/
def Date.Shifted (d : Date) (delta : Int) : Date :=
  if delta < 0 then iterDate Date.Previous (-delta).toNat d
  else iterDate Date.Next delta.toNat d

/-- Embeds `Date.After` (lexicographic on year, month, day). -/
def Date.After (d o : Date) : Bool :=
  decide (d.Y > o.Y) || (decide (d.Y = o.Y) && decide (d.M > o.M)) ||
    (decide (d.Y = o.Y) && decide (d.M = o.M) && decide (d.D > o.D))

/-- Embeds `Date.Before` (lexicographic on year, month, day). -/
def Date.Before (d o : Date) : Bool :=
  decide (d.Y < o.Y) || (decide (d.Y = o.Y) && decide (d.M < o.M)) ||
    (decide (d.Y = o.Y) && decide (d.M = o.M) && decide (d.D < o.D))

/-! ### Date parsing (`Date.UnmarshalText`)

The Go regex `^([0-9]{4})[[:punct:]]?([0-9]{2})[[:punct:]]?([0-9]{2})` is a
prefix match: four digits, an optional ASCII punctuation character, two
digits, optional punctuation, two digits, trailing input ignored.  Since the
digit and punctuation classes are disjoint, the greedy optional groups reduce
to a deterministic skip. -/

def isDigitChar (c : Char) : Bool := decide ('0' ≤ c) && decide (c ≤ '9')

/-- POSIX ASCII `[[:punct:]]`: the four printable non-alphanumeric ranges. -/
def isPunctChar (c : Char) : Bool :=
  (decide ('!' ≤ c) && decide (c ≤ '/')) || (decide (':' ≤ c) && decide (c ≤ '@')) ||
    (decide ('[' ≤ c) && decide (c ≤ '`')) || (decide ('{' ≤ c) && decide (c ≤ '~'))

/-- Reads exactly `n` decimal digits, returning the value and the rest. -/
def readDigits : Nat → Nat → List Char → Option (Nat × List Char)
  | 0, acc, rest => some (acc, rest)
  | n + 1, acc, cs =>
    match cs with
    | [] => none
    | c :: rest =>
      if isDigitChar c then readDigits n (acc * 10 + (c.toNat - '0'.toNat)) rest
      else none

/-- Skips one optional punctuation character. -/
def skipOptPunct : List Char → List Char
  | [] => []
  | c :: rest => if isPunctChar c then rest else c :: rest

/-- Embeds `Date.UnmarshalText`: regex match, field assignment, `IsValid`
check (error when invalid).  The 4/2/2-digit values always fit the 16/8/8-bit
bounds checked by `strconv.ParseUint`, so those checks cannot fail. -/
def parseDate (s : String) : Option Date :=
  match readDigits 4 0 s.data with
  | none => none
  | some (y, rest) =>
    match readDigits 2 0 (skipOptPunct rest) with
    | none => none
    | some (m, rest2) =>
      match readDigits 2 0 (skipOptPunct rest2) with
      | none => none
      | some (d, _) =>
        let date : Date := ⟨y, m, d⟩
        if date.IsValid then some date else none

/-- Zero-padded decimal rendering, as Go's `%0*d` for non-negative values. -/
def padNat (w n : Nat) : String :=
  let s := toString n
  ⟨List.replicate (w - s.length) '0' ++ s.data⟩

/-- Embeds `Date.StringSeparator`. -/
def Date.StringSeparator (d : Date) (sep : String) : String :=
  padNat 4 d.Y ++ sep ++ padNat 2 d.M ++ sep ++ padNat 2 d.D

/-- Embeds `Date.String` (separator `"-"`). -/
def Date.toStr (d : Date) : String := d.StringSeparator "-"

/-- The Go zero value of `Date`. -/
def zeroDate : Date := ⟨0, 0, 0⟩

/-! ## schedules package (schedules.go, part_004) -/

structure FeedDates where
  Start : Date
  End : Date
deriving DecidableEq, Repr

/-- Embeds `FeedDates.Contains` (inclusive on both ends). -/
def FeedDates.Contains (fd : FeedDates) (d : Date) : Bool :=
  (decide (fd.Start = d) || d.After fd.Start) && (decide (fd.End = d) || d.Before fd.End)

structure TripID where
  ScheduleID : Int
  OrderID : Int
  PLKStartDate : Date
deriving DecidableEq, Repr

/-- Embeds `schedules.StopTime`.  The `Platform`/`Track` fields are those of
the current schedules package (spec section 3 and their uses in
`match.TripUpdate`); the older declaration in `schedules.go` lacks them. -/
structure StopTime where
  GTFSTripID : String
  StopID : String
  GTFSSequence : Int
  PLKSequence : Int
  Platform : String
  Track : String
deriving DecidableEq, Repr

/-- Embeds `schedules.Trip`.  `Numbers` follows the current declaration used
by `match.newTripUpdate` (`t.Numbers`); the older one has a single `Number`. -/
structure Trip where
  GTFSStartDate : Date
  AgencyID : String
  Numbers : List String
  StopTimes : List StopTime
deriving DecidableEq, Repr

/-- Embeds `Trip.GetTripIDs`: GTFS trip ids of the stop-times, de-duplicated,
in order of first appearance. -/
def Trip.GetTripIDs (t : Trip) : List String :=
  t.StopTimes.foldl
    (fun ids st => if ids.contains st.GTFSTripID then ids else ids ++ [st.GTFSTripID]) []

/-- Embeds `Trip.GetStopIDs`: the canonical stops visited by the trip.  The
current code returns a set; a list models it, with `List.contains` as `Has`
and appending as `Add` (membership is all the matcher uses). -/
def Trip.GetStopIDs (t : Trip) : List String :=
  t.StopTimes.map (fun st => st.StopID)

/-- Embeds `schedules.Package` for the parts the matcher reads.  `Stops` is
the canonical-stop map; a missing key yields `""` (the Go map zero value). -/
structure Package where
  Dates : FeedDates
  Stops : String → String
  Trips : TripID → Option Trip

/-! ### LoadGTFSFeedDates (part_004 lines 153-176)

The embedding starts from the parsed CSV row (the `mcsv` reader is an
external collaborator).  Note the second `UnmarshalText` call in the source
stores the parsed `feed_end_date` into `d.Start`, not `d.End`; the embedding
reproduces that assignment faithfully. -/

def LoadGTFSFeedDates (row : String → String) : Except String FeedDates :=
  match parseDate (row "feed_start_date") with
  | none => .error "feed_info.txt:2: invalid feed_start_date"
  | some s =>
    let d : FeedDates := { Start := s, End := zeroDate }
    let d : FeedDates := { d with Start := d.Start.Previous }
    match parseDate (row "feed_end_date") with
    | none => .error "feed_info.txt:2: invalid feed_end_date"
    | some e => .ok { d with Start := e }

/-! ### Canonical stop ids (part_004 lines 223-236) -/

/-- Tests whether `pat` is a prefix of the second list (`strings.HasPrefix`
on the character level). -/
def charsStartWith : List Char → List Char → Bool
  | [], _ => true
  | _ :: _, [] => false
  | p :: ps, c :: cs => p == c && charsStartWith ps cs

/-- Tests whether `pat` occurs as a contiguous substring (`strings.Contains`
on the character level). -/
def charsContain (pat : List Char) : List Char → Bool
  | [] => charsStartWith pat []
  | c :: cs => charsStartWith pat (c :: cs) || charsContain pat cs

/-- Tests whether `pat` is a suffix (`strings.HasSuffix` on the character
level). -/
def charsEndWith (pat s : List Char) : Bool :=
  charsStartWith pat.reverse s.reverse

/-- Embeds `rankStopID`. -/
def rankStopID (id : String) : Nat :=
  if charsEndWith "_RAIL".data id.data then 3
  else if charsEndWith "_BUS".data id.data then 2
  else if charsContain "_BUS_".data id.data then 1
  else 0

/-- Embeds `cmp.Compare` on the ranks. -/
def cmpNat (a b : Nat) : Int :=
  if a < b then -1 else if a = b then 0 else 1

/-- Embeds `slices.MaxFunc`: scan left to right, replace the current maximum
only on a strictly greater comparison (ties keep the earlier element).  Go
panics on an empty slice; the embedding returns `none` there. -/
def sliceMaxFunc (cmp : String → String → Int) : List String → Option String
  | [] => none
  | x :: xs => some (xs.foldl (fun m y => if cmp y m > 0 then y else m) x)

/-- Embeds `pickCanonicalStopID`. -/
def pickCanonicalStopID (used : List String) : Option String :=
  sliceMaxFunc (fun a b => cmpNat (rankStopID a) (rankStopID b)) used

/-! ## backoff package (part_007) -/

/-- Embeds Go's `pow` loop over `uint` (64-bit, wrapping): square-and-multiply
with every multiplication reduced modulo `2^64`.  The loop halves `exp` each
iteration, so `exp + 1` units of fuel always suffice; fuel keeps the
recursion structural so the kernel can evaluate it. -/
def goPowLoop : Nat → Nat → Nat → Nat → Nat
  | 0, r, _, _ => r
  | fuel + 1, r, base, exp =>
    if exp = 0 then r
    else goPowLoop fuel (if exp % 2 = 1 then r * base % 2 ^ 64 else r)
      (base * base % 2 ^ 64) (exp / 2)

/-- Embeds `backoff.pow` (entry point, accumulator 1). -/
def goPow (base exp : Nat) : Nat := goPowLoop (exp + 1) 1 base exp

/-- Go conversion `uint(x)` of an `int64`-valued quantity: two's complement
reinterpretation, i.e. reduction modulo `2^64` into `[0, 2^64)`. -/
def uintOfInt (x : Int) : Nat := (x % (2 ^ 64 : Int)).toNat

/-- Go conversion `time.Duration(u)` of a `uint`: two's complement
reinterpretation of the low 64 bits as a signed value. -/
def int64OfUint (n : Nat) : Int :=
  if n % 2 ^ 64 < 2 ^ 63 then ((n % 2 ^ 64 : Nat) : Int)
  else ((n % 2 ^ 64 : Nat) : Int) - 2 ^ 64

/-- Embeds `backoff.Backoff`.  `Period`, `lastRun` and `nextRun` are `int64`
nanosecond counts; `Failures` is the Go `uint` kept in `[0, 2^64)`. -/
structure Backoff where
  Period : Int
  Failures : Nat
  MaxBackoffExponent : Nat
  lastRun : Int
  nextRun : Int
deriving DecidableEq, Repr

/-- Embeds `Backoff.StartRun` (records the current time). -/
def Backoff.StartRun (b : Backoff) (now : Int) : Backoff := { b with lastRun := now }

/-- Embeds `Backoff.EndRun`.  On failure the exponent is `Failures - 1` in
`uint` arithmetic, capped at `MaxBackoffExponent` when that cap is positive,
and the sleep is `time.Duration(pow(uint(Period), exponent))`. -/
def Backoff.EndRun (b : Backoff) (success : Bool) : Backoff :=
  if success then
    { b with Failures := 0, nextRun := b.lastRun + b.Period }
  else
    let failures := (b.Failures + 1) % 2 ^ 64
    let e := (failures + (2 ^ 64 - 1)) % 2 ^ 64
    let e := if 0 < b.MaxBackoffExponent ∧ b.MaxBackoffExponent < e then b.MaxBackoffExponent else e
    let sleep := int64OfUint (goPow (uintOfInt b.Period) e)
    { b with Failures := failures, nextRun := b.lastRun + sleep }

/-! ## source package: live entities (part_005, operations.go, disruption.go)

Live arrival/departure values are opaque timestamps to the matcher; they are
modelled as `Int` nanosecond counts and only ever copied. -/

structure OperationTrainStop where
  StopID : Int
  PlannedSequence : Int
  ActualSequence : Int
  LiveArrival : Int
  LiveDeparture : Int
  Confirmed : Bool
  Cancelled : Bool
deriving DecidableEq, Repr

/-- Embeds `source.TrainID` (part_005), the live identity key.  The unused
`TrainOrderID` field is omitted. -/
structure TrainID where
  ScheduleID : Int
  OrderID : Int
  OperatingDate : Date
deriving DecidableEq, Repr

/-- Embeds `source.OperationTrain`; the Go struct embeds `TrainID`. -/
structure OperationTrain where
  TrainID : TrainID
  Status : String
  Stops : List OperationTrainStop
deriving DecidableEq, Repr

/-- Embeds `source.AffectedTrain`; the Go struct embeds `TrainID`. -/
structure AffectedTrain where
  TrainID : TrainID
  StationID : Int
  Sequence : Int
deriving DecidableEq, Repr

/-- Embeds `source.Disruption`; the Go field `Type` is `TypeCode` here
because `Type` is reserved in Lean. -/
structure Disruption where
  ID : Int
  TypeCode : String
  Title : String
  Message : String
  AffectedTrains : List AffectedTrain
deriving DecidableEq, Repr

/-! ## fact package (fact.go): the output contract -/

structure TripSelector where
  TripID : String
  GTFSStartDate : Date
deriving DecidableEq, Repr

structure StopTimeUpdate where
  Sequence : Int
  StopID : String
  Arrival : Int
  Departure : Int
  Cancelled : Bool
  Confirmed : Bool
  Platform : String
  Track : String
deriving DecidableEq, Repr

structure TripUpdate where
  ID : String
  Selector : TripSelector
  AgencyID : String
  Numbers : List String
  StopTimes : List StopTimeUpdate
  Cancelled : Bool
  Detour : Bool
deriving DecidableEq, Repr

structure Alert where
  ID : String
  Title : String
  Message : String
  Trips : List TripSelector
deriving DecidableEq, Repr

/-! ## match package (part_003, trip.go, alert.go) -/

/-- Embeds `match.Trip`: primary identity lookup in the schedule index. -/
def matchTrip (real : TrainID) (static : Package) : Option Trip :=
  static.Trips ⟨real.ScheduleID, real.OrderID, real.OperatingDate⟩

/-- Embeds `match.TripSelectors`. -/
def matchTripSelectors (real : TrainID) (static : Package) : List TripSelector :=
  match matchTrip real static with
  | none => []
  | some t => t.GetTripIDs.map (fun tripID => ⟨tripID, t.GTFSStartDate⟩)

/-- Embeds `isEntireTripCancelled`. -/
def isEntireTripCancelled (real : OperationTrain) : Bool :=
  if real.Stops.isEmpty then real.Status == "X"
  else real.Stops.all (fun s => s.Cancelled)

/-- Embeds `strconv.Itoa` on a Go `int` (Lean `Int.repr` renders negatives
with a leading minus, like `%d`). -/
def itoa (n : Int) : String := toString n

/-- Embeds `getAllRealStopIDs`: canonicalize every live stop's raw numeric
id, dropping ids that fail to map (zero-value `""` lookups). -/
def getAllRealStopIDs (stops : List OperationTrainStop) (canonicalStops : String → String) :
    List String :=
  stops.filterMap fun stop =>
    let stopID := canonicalStops (itoa stop.StopID)
    if stopID = "" then none else some stopID

/-- Embeds `isOnDetour` (part_003 lines 130-147), including the
Bohumin-Zebrzydowice hotfix that adds station `"179221"` to the scheduled
set when both `"179223"` and `"75507"` are scheduled. -/
def isOnDetour (real : OperationTrain) (trip : Trip) (canonicalStops : String → String) : Bool :=
  let scheduledStops := trip.GetStopIDs
  let scheduledStops :=
    if scheduledStops.contains "179223" && scheduledStops.contains "75507" then
      scheduledStops ++ ["179221"]
    else scheduledStops
  (getAllRealStopIDs real.Stops canonicalStops).any fun stopID => !scheduledStops.contains stopID

/-- The ordering used by the `slices.SortFunc` call: compare stops by
`ActualSequence`. -/
def stopLE (a b : OperationTrainStop) : Prop := a.ActualSequence ≤ b.ActualSequence

instance : DecidableRel stopLE :=
  fun a b => inferInstanceAs (Decidable (a.ActualSequence ≤ b.ActualSequence))

instance : IsTotal OperationTrainStop stopLE :=
  ⟨fun a b => Int.le_total a.ActualSequence b.ActualSequence⟩

instance : IsTrans OperationTrainStop stopLE := ⟨fun _ _ _ => Int.le_trans⟩

/-- Embeds the `slices.SortFunc(real.Stops, cmp by ActualSequence)` call as an
insertion sort: the Go sort is unstable, so the order among equal
`ActualSequence` keys is unspecified there; any sort by the same key is a
faithful model. -/
def sortStopsByActualSequence (stops : List OperationTrainStop) : List OperationTrainStop :=
  stops.insertionSort stopLE

/-- The loop body of `getDetourStopTimeUpdates` with its running 0-based
index `idx`, which advances only when an update is emitted. -/
def detourLoop (canonicalStops : String → String) :
    List OperationTrainStop → Nat → List StopTimeUpdate
  | [], _ => []
  | stop :: rest, idx =>
    let stopID := canonicalStops (itoa stop.StopID)
    if stopID ≠ "" ∧ stop.Cancelled = false then
      { Sequence := (idx : Int), StopID := stopID, Arrival := stop.LiveArrival,
        Departure := stop.LiveDeparture, Cancelled := false, Confirmed := stop.Confirmed,
        Platform := "", Track := "" } :: detourLoop canonicalStops rest (idx + 1)
    else detourLoop canonicalStops rest idx

/-- Embeds `getDetourStopTimeUpdates` (part_003 lines 163-182). -/
def getDetourStopTimeUpdates (stops : List OperationTrainStop)
    (canonicalStops : String → String) : List StopTimeUpdate :=
  detourLoop canonicalStops stops 0

/-- Embeds `newTripUpdate` (part_003 lines 184-191). -/
def newTripUpdate (t : Trip) (tripID : String) : TripUpdate :=
  { ID := "U_" ++ t.GTFSStartDate.toStr ++ "_" ++ tripID,
    Selector := ⟨tripID, t.GTFSStartDate⟩,
    AgencyID := t.AgencyID,
    Numbers := t.Numbers,
    StopTimes := [],
    Cancelled := false,
    Detour := false }

/-- Embeds the `realStopByPLKSequence` map: inserting every live stop keyed
by `PlannedSequence`, later insertions overwriting earlier ones, then looking
a key up (`nil` when absent). -/
def realStopByPLKSequence (stops : List OperationTrainStop) (key : Int) :
    Option OperationTrainStop :=
  stops.foldl (fun acc s => if s.PlannedSequence = key then some s else acc) none

/-- The stop-time update built by the normal-update loop body for a
scheduled stop-time `st` and its live stop `r`. -/
def mkNormalStopTimeUpdate (st : StopTime) (r : OperationTrainStop) : StopTimeUpdate :=
  if r.Cancelled then
    { Sequence := st.GTFSSequence, StopID := "", Arrival := 0, Departure := 0,
      Cancelled := true, Confirmed := false, Platform := "", Track := "" }
  else
    { Sequence := st.GTFSSequence, StopID := "", Arrival := r.LiveArrival,
      Departure := r.LiveDeparture, Cancelled := false, Confirmed := r.Confirmed,
      Platform := st.Platform, Track := st.Track }

/-- One iteration of the normal-update loop over `trip.StopTimes`: find the
update slot by the stop-time's GTFS trip id (`updateIndexByTripID` is the
index of that id in `GetTripIDs()`), skip when no live stop carries the
scheduled PLK sequence, otherwise append one stop-time update.  The Go panic
for a missing index is unreachable because `GetTripIDs` enumerates exactly
the ids occurring in `StopTimes`; `List.modify` out of range is a no-op. -/
def normalUpdateStep (tripIDs : List String) (stops : List OperationTrainStop)
    (updates : List TripUpdate) (st : StopTime) : List TripUpdate :=
  match realStopByPLKSequence stops st.PLKSequence with
  | none => updates
  | some r =>
    updates.modify
      (fun u => { u with StopTimes := u.StopTimes ++ [mkNormalStopTimeUpdate st r] })
      (tripIDs.indexOf st.GTFSTripID)

/-- Embeds `match.TripUpdate` (part_003 lines 34-116).  The `stats` counters
are omitted: they do not influence the returned facts.  The live stops are
sorted by actual sequence before the detour test, as in the source. -/
def matchTripUpdate (real : OperationTrain) (static : Package) : List TripUpdate :=
  match matchTrip real.TrainID static with
  | none => []
  | some trip =>
    let tripIDs := trip.GetTripIDs
    if isEntireTripCancelled real then
      tripIDs.map (fun tripID => { newTripUpdate trip tripID with Cancelled := true })
    else
      let sortedStops := sortStopsByActualSequence real.Stops
      let realSorted := { real with Stops := sortedStops }
      if isOnDetour realSorted trip static.Stops then
        (tripIDs.enum).map (fun p =>
          if p.1 = 0 then
            { newTripUpdate trip p.2 with
                Detour := true,
                StopTimes := getDetourStopTimeUpdates sortedStops static.Stops }
          else
            { newTripUpdate trip p.2 with Cancelled := true })
      else
        trip.StopTimes.foldl (normalUpdateStep tripIDs sortedStops)
          (tripIDs.map (newTripUpdate trip))

/-- Embeds `match.Alert` (alert.go lines 27-46). -/
def matchAlert (real : Disruption) (static : Package) : Option Alert :=
  let trips := real.AffectedTrains.flatMap fun train =>
    matchTripSelectors train.TrainID static
  if trips.isEmpty then none
  else some { ID := "A_" ++ toString real.ID, Title := real.Title,
              Message := real.Message, Trips := trips }

/-! ## Driver error classification and paginated fetch (main.go, operations.go)

Errors reaching the driver loop are classified only by their type and status
code.  `DriverError` covers the shapes relevant to the claims: `http2.Error`
values, the `source.ErrTooManyPages` sentinel, and any other error. -/

inductive DriverError where
  | http (url status : String) (statusCode : Int)
  | tooManyPages
  | other (msg : String)
deriving DecidableEq, Repr

/-- Embeds `canBackoff` (main.go lines 139-148): only an `*http2.Error` with
status 429, 500 or 503 is retryable. -/
def canBackoff : DriverError → Bool
  | .http _ _ statusCode => statusCode == 429 || statusCode == 500 || statusCode == 503
  | _ => false

/-- One fetched page of the live operations feed, as far as the pagination
loop inspects it. -/
structure OpsPage where
  Trains : List OperationTrain
  HasNext : Bool

/-- The page loop of `FetchOperations` (operations.go lines 61-92):
`remaining` counts the pages the budget still allows (`MaxPages - page + 1`);
when the budget runs out the loop returns `ErrTooManyPages`. -/
def fetchOpsLoop (fetchPage : Nat → Except DriverError OpsPage)
    (acc : List OperationTrain) (page remaining : Nat) :
    Except DriverError (List OperationTrain) :=
  match remaining with
  | 0 => .error .tooManyPages
  | r + 1 =>
    match fetchPage page with
    | .error e => .error e
    | .ok o =>
      if o.HasNext then fetchOpsLoop fetchPage (acc ++ o.Trains) (page + 1) r
      else .ok (acc ++ o.Trains)

/-- Embeds `FetchOperations` at the page level: pages 1..maxPages, abstracted
over the page fetcher (the HTTP client is an external collaborator). -/
def fetchOperations (fetchPage : Nat → Except DriverError OpsPage) (maxPages : Nat) :
    Except DriverError (List OperationTrain) :=
  fetchOpsLoop fetchPage [] 1 maxPages

/-! ## Output file writing (fact.go lines 53-118)

The encoders themselves are external; what the claims speak about is the
sequence of path-level filesystem operations each dump routine performs.
`DumpGTFSFile` creates a temporary file and renames it over the final path;
`DumpJSONFile` creates the final path directly. -/

inductive FileOp where
  | create (path : String)
  | rename (source target : String)
deriving DecidableEq, Repr

/-- Embeds `filepath.Split`: everything through the final `/` is the
directory, the rest the file name. -/
def splitFilepath : List Char → List Char × List Char
  | [] => ([], [])
  | c :: rest =>
    if rest.contains '/' then
      ((c :: (splitFilepath rest).1), (splitFilepath rest).2)
    else if c = '/' then ([c], rest)
    else ([], c :: rest)

/-- Embeds `getTempOutputPath` (fact.go lines 256-259):
`fmt.Sprintf("%s.%s.tmp", dir, name)`. -/
def getTempOutputPath (path : String) : String :=
  ⟨(splitFilepath path.data).1 ++ ('.' :: ((splitFilepath path.data).2 ++ ".tmp".data))⟩

/-- The filesystem operations of `Container.DumpGTFSFile` (fact.go lines
95-118): create the temporary file, write everything, rename it over the
final path. -/
def dumpGTFSFileOps (path : String) : List FileOp :=
  [.create (getTempOutputPath path), .rename (getTempOutputPath path) path]

/-- The filesystem operations of `Container.DumpJSONFile` (fact.go lines
61-75): create the final path directly and write into it. -/
def dumpJSONFileOps (path : String) : List FileOp :=
  [.create path]

/-! ## Claim-side definitions -/

/-- The feed-metadata row used to exhibit the `LoadGTFSFeedDates` slip. -/
def feedInfoRow : String → String := fun c =>
  if c = "feed_start_date" then "20240301"
  else if c = "feed_end_date" then "20240401" else ""

/-- Says that `x` is the first element of `l` attaining the maximal
`rankStopID` value: everything before `x` ranks strictly lower and nothing in
`l` ranks higher. -/
def IsFirstMaxByRank (l : List String) (x : String) : Prop :=
  ∃ l1 l2, l = l1 ++ x :: l2 ∧ (∀ y ∈ l1, rankStopID y < rankStopID x) ∧
    ∀ y ∈ l, rankStopID y ≤ rankStopID x

/-! ### Concrete fixtures

A small schedule index and live records used by the counterexamples and
witnesses: one trip over stations `S1`, `S2` with platforms/tracks, a split
run with two standard-trip identities, and live stops whose raw ids 5, 6, 7
canonicalize to `S1`, `S2`, `S3`. -/

def fixtureDate : Date := ⟨2024, 5, 1⟩

/-- Live stop at raw id 5 (station `S1`), planned/actual sequence 1,
cancelled. -/
def stopA : OperationTrainStop := ⟨5, 1, 1, 0, 0, false, true⟩

/-- Live stop at raw id 6 (station `S2`), planned/actual sequence 2,
confirmed. -/
def stopB : OperationTrainStop := ⟨6, 2, 2, 10, 20, true, false⟩

/-- Live stop at raw id 7 (station `S3`, unscheduled), sequence 3. -/
def stopC : OperationTrainStop := ⟨7, 3, 3, 30, 40, true, false⟩

/-- Canonical-stop table of the fixtures (`""` everywhere else). -/
def fixtureCanon : String → String := fun s =>
  if s = "5" then "S1" else if s = "6" then "S2" else if s = "7" then "S3" else ""

/-- A one-identity trip over `S1` (platform 2, track 3) and `S2`
(platform 4, track 5). -/
def fixtureTrip : Trip :=
  ⟨fixtureDate, "IC", ["123"],
    [⟨"PLK_IC_1_1", "S1", 0, 1, "2", "3"⟩, ⟨"PLK_IC_1_1", "S2", 1, 2, "4", "5"⟩]⟩

/-- The same physical run split into two standard-trip identities. -/
def fixtureSplitTrip : Trip :=
  ⟨fixtureDate, "IC", ["123"],
    [⟨"PLK_IC_1_1", "S1", 0, 1, "2", "3"⟩, ⟨"PLK_IC_1_2", "S2", 1, 2, "4", "5"⟩]⟩

/-- Schedule index holding `fixtureTrip` under (1, 1, fixtureDate) and
`fixtureSplitTrip` under (2, 2, fixtureDate). -/
def fixtureStatic : Package :=
  ⟨⟨⟨2024, 4, 30⟩, ⟨2024, 6, 1⟩⟩, fixtureCanon, fun id =>
    if id = ⟨1, 1, fixtureDate⟩ then some fixtureTrip
    else if id = ⟨2, 2, fixtureDate⟩ then some fixtureSplitTrip
    else none⟩

/-- A live train matching `fixtureTrip`: its first stop is cancelled, its
second runs normally. -/
def fixtureReal : OperationTrain := ⟨⟨1, 1, fixtureDate⟩, "", [stopA, stopB]⟩

/-- A live train matching `fixtureSplitTrip` that also visits the
unscheduled station `S3` — a detour. -/
def fixtureDetourReal : OperationTrain := ⟨⟨2, 2, fixtureDate⟩, "", [stopB, stopC, stopA]⟩

/-- A disruption affecting both fixture runs: its trains resolve to one and
two standard-trip identities respectively, three selectors in total. -/
def fixtureDisruption : Disruption :=
  ⟨7, "", "title", "message", [⟨⟨1, 1, fixtureDate⟩, 0, 0⟩, ⟨⟨2, 2, fixtureDate⟩, 0, 0⟩]⟩

/-! # Theorems -/

/-- C1: the claim says `LoadGTFSFeedDates` returns `Start = S.Previous()` and
`End = E`.  On the row `{feed_start_date: 20240301, feed_end_date: 20240401}`
both fields parse (S = 2024-03-01, E = 2024-04-01, S.Previous() =
2024-02-29), yet the function returns `Start = 2024-04-01` (the end date,
written into `Start` by the second `UnmarshalText` call) and the zero value
for `End`, contradicting the claim.  The source's own error label for that
call says `feed_end_date`, and the never-assigned `End` makes the feed
window empty, so this is a slip in the code. -/
theorem C1_LoadGTFSFeedDates_bug :
    parseDate "20240301" = some ⟨2024, 3, 1⟩ ∧
    parseDate "20240401" = some ⟨2024, 4, 1⟩ ∧
    (Date.mk 2024 3 1).Previous = ⟨2024, 2, 29⟩ ∧
    LoadGTFSFeedDates feedInfoRow = .ok { Start := ⟨2024, 4, 1⟩, End := ⟨0, 0, 0⟩ } ∧
    ({ Start := ⟨2024, 4, 1⟩, End := ⟨0, 0, 0⟩ } : FeedDates) ≠
      { Start := ⟨2024, 2, 29⟩, End := ⟨2024, 4, 1⟩ } := by
  refine ⟨by decide, by decide, by decide, rfl, by decide⟩

/-- C8, counterexample: a source on which every page reports a further page
exhausts the ten-page budget and yields `ErrTooManyPages`, and the driver's
retry classification `canBackoff` rejects that failure — the claim says it
is treated as transient and retried. -/
theorem C8_tooManyPages_counterexample :
    fetchOperations (fun _ => .ok { Trains := [], HasNext := true }) 10 =
      .error .tooManyPages ∧
    canBackoff .tooManyPages = false := by
  exact ⟨rfl, rfl⟩

/-- C8, amended: exhausting the page budget yields `ErrTooManyPages`, but the
driver treats it as fatal, not transient: `canBackoff` accepts exactly the
HTTP failures with status 429, 500 or 503 and rejects everything else,
including `ErrTooManyPages`. -/
theorem C8_canBackoff_spec :
    (∀ e : DriverError, canBackoff e = true ↔
      ∃ u s code, e = .http u s code ∧ (code = 429 ∨ code = 500 ∨ code = 503)) ∧
    (∀ fetchPage : Nat → Except DriverError OpsPage,
      (∀ p, ∃ o, fetchPage p = .ok o ∧ o.HasNext = true) →
      ∀ maxPages, fetchOperations fetchPage maxPages = .error .tooManyPages ∧
        canBackoff .tooManyPages = false) := by
  constructor
  · intro e
    cases e with
    | http u s code =>
      simp only [canBackoff, Bool.or_eq_true, beq_iff_eq]
      constructor
      · intro h
        exact ⟨u, s, code, rfl, by tauto⟩
      · rintro ⟨u2, s2, c2, he, hc⟩
        cases he
        tauto
    | tooManyPages =>
      simp only [canBackoff]
      constructor
      · intro h; cases h
      · rintro ⟨u2, s2, c2, he, hc⟩; cases he
    | other m =>
      simp only [canBackoff]
      constructor
      · intro h; cases h
      · rintro ⟨u2, s2, c2, he, hc⟩; cases he
  · intro fetchPage hnext maxPages
    refine ⟨?_, rfl⟩
    have key : ∀ remaining page acc,
        fetchOpsLoop fetchPage acc page remaining = .error .tooManyPages := by
      intro remaining
      induction remaining with
      | zero => intro page acc; rfl
      | succ r ih =>
        intro page acc
        simp only [fetchOpsLoop]
        obtain ⟨o, ho, hn⟩ := hnext page
        rw [ho]
        simp [hn, ih]
    exact key maxPages 1 []

/-- Splitting a path at the last separator and concatenating the two halves
recovers the path. -/
theorem splitFilepath_append (cs : List Char) :
    (splitFilepath cs).1 ++ (splitFilepath cs).2 = cs := by
  induction cs with
  | nil => rfl
  | cons c rest ih =>
    simp only [splitFilepath]
    by_cases h : '/' ∈ rest
    · simp [h, ih]
    · by_cases hc : c = '/' <;> simp [h, hc]

/-- The characters of the temporary output path, unfolded. -/
theorem getTempOutputPath_data (path : String) : (getTempOutputPath path).data =
    (splitFilepath path.data).1 ++ ('.' :: ((splitFilepath path.data).2 ++ ".tmp".data)) := rfl

/-- The temporary output path is five characters longer than the final one. -/
theorem getTempOutputPath_length (path : String) :
    (getTempOutputPath path).data.length = path.data.length + 5 := by
  have h := congrArg List.length (splitFilepath_append path.data)
  simp only [List.length_append] at h
  rw [getTempOutputPath_data, List.length_append, List.length_cons, List.length_append]
  have h4 : ".tmp".data.length = 4 := rfl
  omega

/-- The temporary output path never coincides with the final path. -/
theorem getTempOutputPath_ne (path : String) : getTempOutputPath path ≠ path := by
  intro h
  have h2 : (getTempOutputPath path).data.length = path.data.length := by rw [h]
  rw [getTempOutputPath_length] at h2
  omega

/-- C9, counterexample: `DumpJSONFile` opens the final output path directly
(`os.Create(path)`) and writes into it; there is no temporary file and no
rename, so a concurrent reader of the JSON document can observe a partial
write — the claim says both output files are written via temp-then-rename. -/
theorem C9_json_counterexample :
    dumpJSONFileOps "polish_trains.json" = [FileOp.create "polish_trains.json"] ∧
    FileOp.create "polish_trains.json" ∈ dumpJSONFileOps "polish_trains.json" := by
  exact ⟨rfl, by simp [dumpJSONFileOps]⟩

/-- C9, amended: only the binary protocol feed is written with the
temporary-file-then-rename discipline (and its temporary path never equals
the final path, so the final path is only ever touched by the rename); the
JSON document is written directly to its final path. -/
theorem C9_dump_spec (path : String) :
    dumpGTFSFileOps path =
      [.create (getTempOutputPath path), .rename (getTempOutputPath path) path] ∧
    getTempOutputPath path ≠ path ∧
    (∀ op ∈ dumpGTFSFileOps path, op ≠ FileOp.create path) ∧
    dumpJSONFileOps path = [.create path] := by
  refine ⟨rfl, getTempOutputPath_ne path, ?_, rfl⟩
  intro op hop
  simp only [dumpGTFSFileOps, List.mem_cons, List.mem_singleton] at hop
  rcases hop with h | h | h
  · subst h
    intro he
    exact getTempOutputPath_ne path (by injection he)
  · subst h
    intro he
    cases he
  · cases h

/-- A positive `cmp.Compare` result means a strictly greater rank. -/
theorem cmpNat_pos (a b : Nat) : cmpNat a b > 0 ↔ b < a := by
  unfold cmpNat
  split_ifs <;> omega

/-- The `slices.MaxFunc` scan returns the first element attaining the
maximal rank. -/
theorem pickLoop_first_max : ∀ (us : List String) (u : String),
    IsFirstMaxByRank (u :: us)
      (us.foldl (fun m y => if cmpNat (rankStopID y) (rankStopID m) > 0 then y else m) u) := by
  intro us
  induction us with
  | nil =>
    intro u
    exact ⟨[], [], rfl, by simp, by simp⟩
  | cons y ys ih =>
    intro u
    simp only [List.foldl_cons]
    by_cases hcmp : cmpNat (rankStopID y) (rankStopID u) > 0
    · rw [if_pos hcmp]
      obtain ⟨l1, l2, hdec, hlt, hle⟩ := ih y
      have hry : rankStopID y ≤
          rankStopID (ys.foldl
            (fun m z => if cmpNat (rankStopID z) (rankStopID m) > 0 then z else m) y) :=
        hle y (by simp)
      have hu := (cmpNat_pos _ _).mp hcmp
      refine ⟨u :: l1, l2, by rw [List.cons_append, ← hdec], ?_, ?_⟩
      · intro z hz
        rcases List.mem_cons.mp hz with h | h
        · subst h; omega
        · exact hlt z h
      · intro z hz
        rcases List.mem_cons.mp hz with h | h
        · subst h; omega
        · exact hle z (by rw [hdec] at h ⊢; exact h)
    · rw [if_neg hcmp]
      have hyu : rankStopID y ≤ rankStopID u := by
        rw [cmpNat_pos] at hcmp; omega
      obtain ⟨l1, l2, hdec, hlt, hle⟩ := ih u
      cases l1 with
      | nil =>
        simp only [List.nil_append] at hdec
        injection hdec with h1 h2
        refine ⟨[], y :: ys, by rw [List.nil_append, ← h1], by simp, ?_⟩
        intro z hz
        rw [← h1]
        rcases List.mem_cons.mp hz with h | h
        · subst h; omega
        · rcases List.mem_cons.mp h with h3 | h3
          · subst h3; omega
          · have := hle z (List.mem_cons.mpr (Or.inr h3))
            rw [← h1] at this
            omega
      | cons a l1t =>
        simp only [List.cons_append] at hdec
        injection hdec with h1 h2
        subst h1
        have hult : rankStopID u <
            rankStopID (ys.foldl
              (fun m z => if cmpNat (rankStopID z) (rankStopID m) > 0 then z else m) u) :=
          hlt u (by simp)
        refine ⟨u :: y :: l1t, l2, by rw [List.cons_append, List.cons_append, ← h2], ?_, ?_⟩
        · intro z hz
          rcases List.mem_cons.mp hz with h | h
          · subst h; omega
          · rcases List.mem_cons.mp h with h3 | h3
            · subst h3; omega
            · exact hlt z (List.mem_cons.mpr (Or.inr h3))
        · intro z hz
          rcases List.mem_cons.mp hz with h | h
          · subst h; omega
          · rcases List.mem_cons.mp h with h3 | h3
            · subst h3; omega
            · exact hle z (List.mem_cons.mpr (Or.inr h3))

/-- On a non-empty group, the pick is the first maximal-rank id. -/
theorem pickCanonicalStopID_first_max (used : List String) (x : String)
    (h : pickCanonicalStopID used = some x) : IsFirstMaxByRank used x := by
  cases used with
  | nil => cases h
  | cons u us =>
    have := pickLoop_first_max us u
    simp only [pickCanonicalStopID, sliceMaxFunc, Option.some.injEq] at h
    rwa [h] at this

/-- When one id outranks all others, the scan picks it, in any input order. -/
theorem pickCanonicalStopID_unique_max (used : List String) (x : String)
    (hx : x ∈ used) (hmax : ∀ y ∈ used, y ≠ x → rankStopID y < rankStopID x) :
    pickCanonicalStopID used = some x := by
  cases used with
  | nil => cases hx
  | cons u us =>
    obtain ⟨l1, l2, hdec, hlt, hle⟩ := pickLoop_first_max us u
    set r := us.foldl (fun m y => if cmpNat (rankStopID y) (rankStopID m) > 0 then y else m) u
      with hr
    have hrmem : r ∈ u :: us := by
      rw [hdec]
      exact List.mem_append.mpr (Or.inr (by simp))
    have : r = x := by
      by_contra hne
      have h1 := hmax r hrmem hne
      have h2 := hle x hx
      omega
    simp only [pickCanonicalStopID, sliceMaxFunc, ← hr, this]

/-- C6, counterexample: in the group `["2_RAIL", "3_RAIL"]` both ids carry
the top (rail) rank; the claim's tie-break — the natural maximum among the
equally ranked ids — is `"3_RAIL"`, but `pickCanonicalStopID` keeps the
first maximal element and returns `"2_RAIL"`. -/
theorem C6_pickCanonical_counterexample :
    pickCanonicalStopID ["2_RAIL", "3_RAIL"] = some "2_RAIL" ∧
    rankStopID "2_RAIL" = rankStopID "3_RAIL" ∧
    "2_RAIL".data < "3_RAIL".data ∧ ("2_RAIL" : String) ≠ "3_RAIL" := by
  exact ⟨rfl, rfl, by decide, by decide⟩

/-- C6, amended: the canonical id chosen for a station group is the FIRST id
attaining the highest rank, in the group's input order (rank ties are broken
by first appearance, not by natural maximum); the concrete group
`{"A", "A_BUS", "A_RAIL"}` still always yields `"A_RAIL"`, in any order,
because its top rank is attained uniquely. -/
theorem C6_pickCanonical_spec :
    (∀ used x, pickCanonicalStopID used = some x → IsFirstMaxByRank used x) ∧
    (∀ used : List String, used.Perm ["A", "A_BUS", "A_RAIL"] →
      pickCanonicalStopID used = some "A_RAIL") := by
  refine ⟨pickCanonicalStopID_first_max, ?_⟩
  intro used hperm
  apply pickCanonicalStopID_unique_max
  · exact hperm.mem_iff.mpr (by simp)
  · intro y hy hne
    have : y ∈ ["A", "A_BUS", "A_RAIL"] := hperm.mem_iff.mp hy
    simp only [List.mem_cons, List.not_mem_nil, or_false] at this
    rcases this with h | h | h
    · subst h; decide
    · subst h; decide
    · exact absurd h hne

/-- The square-and-multiply loop computes the power modulo `2^64`. -/
theorem goPowLoop_eq : ∀ (fuel exp : Nat), exp < fuel → ∀ (r base : Nat), r < 2 ^ 64 →
    goPowLoop fuel r base exp = r * base ^ exp % 2 ^ 64 := by
  intro fuel
  induction fuel with
  | zero => intro exp h; omega
  | succ f ih =>
    intro exp hexp r base hr
    by_cases h0 : exp = 0
    · subst h0
      show r = r * base ^ 0 % 2 ^ 64
      rw [pow_zero, Nat.mul_one, Nat.mod_eq_of_lt hr]
    · have hstep : goPowLoop (f + 1) r base exp =
          goPowLoop f (if exp % 2 = 1 then r * base % 2 ^ 64 else r)
            (base * base % 2 ^ 64) (exp / 2) := by
        rw [goPowLoop, if_neg h0]
      rw [hstep]
      have hlt : exp / 2 < f := by omega
      by_cases hodd : exp % 2 = 1
      · rw [if_pos hodd]
        have hr2 : r * base % 2 ^ 64 < 2 ^ 64 := Nat.mod_lt _ (by norm_num)
        rw [ih _ hlt _ _ hr2]
        have hcong : (r * base % 2 ^ 64) * ((base * base % 2 ^ 64) ^ (exp / 2)) % 2 ^ 64 =
            (r * base) * ((base * base) ^ (exp / 2)) % 2 ^ 64 :=
          Nat.ModEq.mul (Nat.mod_modEq _ _) ((Nat.mod_modEq _ _).pow _)
        rw [hcong]
        have hde : exp = 2 * (exp / 2) + 1 := by omega
        conv_rhs => rw [hde]
        congr 1
        rw [pow_add, pow_mul, pow_one, pow_two]
        ring
      · rw [if_neg hodd]
        rw [ih _ hlt _ _ hr]
        have hcong : r * ((base * base % 2 ^ 64) ^ (exp / 2)) % 2 ^ 64 =
            r * ((base * base) ^ (exp / 2)) % 2 ^ 64 :=
          Nat.ModEq.mul (Nat.ModEq.refl r) ((Nat.mod_modEq _ _).pow _)
        rw [hcong]
        have hde : exp = 2 * (exp / 2) := by omega
        conv_rhs => rw [hde]
        congr 1
        rw [pow_mul, pow_two]

/-- `backoff.pow` computes the mathematical power reduced modulo `2^64`. -/
theorem goPow_eq (base exp : Nat) : goPow base exp = base ^ exp % 2 ^ 64 := by
  unfold goPow
  rw [goPowLoop_eq (exp + 1) exp (by omega) 1 base (by norm_num), one_mul]

/-- C5, counterexample: with period `P = 2^32` nanoseconds and a third
consecutive failure (`k = 3`), the claim demands
`nextRun - runStart = P^min(2,6) = 2^64`, but the 64-bit `uint` power wraps
to 0, so the controller sets `nextRun` equal to the run start. -/
theorem C5_backoff_counterexample :
    (Backoff.EndRun ⟨4294967296, 2, 6, 0, 0⟩ false).nextRun = 0 ∧
    (4294967296 : Int) ^ min (3 - 1) 6 = 2 ^ 64 ∧ (0 : Int) ≠ 2 ^ 64 := by
  refine ⟨by decide, by norm_num, by norm_num⟩

/-- C5, amended: after the `k`-th consecutive failure the wait is the 64-bit
wrapped power `time.Duration(pow(uint(P), min(k-1,6)))`; it equals the
mathematical `P^min(k-1,6)` exactly when that power fits a signed 64-bit
duration (below `2^63`), and a success always resets the failure counter and
schedules the next run exactly one period after the run start. -/
theorem C5_backoff_spec :
    (∀ (b : Backoff) (k : Nat), 1 ≤ k → k < 2 ^ 64 → b.Failures = k - 1 →
      b.MaxBackoffExponent = 6 →
      (b.EndRun false).Failures = k ∧
      (b.EndRun false).nextRun - b.lastRun =
        int64OfUint (goPow (uintOfInt b.Period) (min (k - 1) 6)) ∧
      (0 ≤ b.Period → b.Period ^ min (k - 1) 6 < 2 ^ 63 →
        (b.EndRun false).nextRun - b.lastRun = b.Period ^ min (k - 1) 6)) ∧
    (∀ b : Backoff, (b.EndRun true).Failures = 0 ∧
      (b.EndRun true).nextRun - b.lastRun = b.Period) := by
  constructor
  · intro b k hk1 hk2 hfail hmax
    have hfailures : (b.Failures + 1) % 2 ^ 64 = k := by omega
    have hexp : ((b.Failures + 1) % 2 ^ 64 + (2 ^ 64 - 1)) % 2 ^ 64 = k - 1 := by
      omega
    have hcap : (if 0 < b.MaxBackoffExponent ∧ b.MaxBackoffExponent <
          ((b.Failures + 1) % 2 ^ 64 + (2 ^ 64 - 1)) % 2 ^ 64
        then b.MaxBackoffExponent
        else ((b.Failures + 1) % 2 ^ 64 + (2 ^ 64 - 1)) % 2 ^ 64) = min (k - 1) 6 := by
      rw [hexp, hmax]
      split_ifs with h
      · omega
      · omega
    have hun : b.EndRun false =
        { b with
            Failures := k,
            nextRun := b.lastRun +
              int64OfUint (goPow (uintOfInt b.Period) (min (k - 1) 6)) } := by
      show { b with
          Failures := (b.Failures + 1) % 2 ^ 64,
          nextRun := b.lastRun + int64OfUint (goPow (uintOfInt b.Period)
            (if 0 < b.MaxBackoffExponent ∧ b.MaxBackoffExponent <
                ((b.Failures + 1) % 2 ^ 64 + (2 ^ 64 - 1)) % 2 ^ 64
              then b.MaxBackoffExponent
              else ((b.Failures + 1) % 2 ^ 64 + (2 ^ 64 - 1)) % 2 ^ 64)) } =
        { b with
            Failures := k,
            nextRun := b.lastRun +
              int64OfUint (goPow (uintOfInt b.Period) (min (k - 1) 6)) }
      rw [hcap, hfailures]
    refine ⟨by rw [hun], by rw [hun]; ring, ?_⟩
    intro hP hbound
    rw [hun]
    simp only [add_sub_cancel_left]
    set m := min (k - 1) 6 with hm
    by_cases hm0 : m = 0
    · rw [hm0, pow_zero]
      rw [goPow_eq, pow_zero]
      decide
    · have hPlt : b.Period < 2 ^ 63 := by
        by_contra hge
        push_neg at hge
        have h1 : (1 : Int) ≤ b.Period := le_trans (by norm_num) hge
        have := le_self_pow₀ h1 hm0
        omega
      have hmod : b.Period % (2 ^ 64 : Int) = b.Period :=
        Int.emod_eq_of_lt hP (by omega)
      have hcast : ((b.Period.toNat : Int)) = b.Period := Int.toNat_of_nonneg hP
      have hnat : (b.Period.toNat) ^ m < 2 ^ 63 := by
        have : ((b.Period.toNat ^ m : Nat) : Int) < 2 ^ 63 := by
          push_cast
          rw [hcast]
          exact hbound
        exact_mod_cast this
      rw [show uintOfInt b.Period = b.Period.toNat by
        unfold uintOfInt; rw [hmod]]
      rw [goPow_eq]
      rw [Nat.mod_eq_of_lt (lt_trans hnat (by norm_num))]
      unfold int64OfUint
      rw [Nat.mod_eq_of_lt (lt_trans hnat (by norm_num))]
      rw [if_pos (by exact_mod_cast hnat)]
      push_cast
      rw [hcast]
  · intro b
    exact ⟨rfl, by show b.lastRun + b.Period - b.lastRun = b.Period; ring⟩

/-- Membership in the canonicalized live stop sequence. -/
theorem mem_getAllRealStopIDs (stops : List OperationTrainStop) (canon : String → String)
    (x : String) : x ∈ getAllRealStopIDs stops canon ↔
      ∃ s ∈ stops, canon (itoa s.StopID) ≠ "" ∧ canon (itoa s.StopID) = x := by
  unfold getAllRealStopIDs
  rw [List.mem_filterMap]
  constructor
  · rintro ⟨s, hs, hf⟩
    by_cases h : canon (itoa s.StopID) = ""
    · simp [h] at hf
    · simp only [h, if_false] at hf
      exact ⟨s, hs, h, by injection hf⟩
  · rintro ⟨s, hs, hne, hx⟩
    subst hx
    exact ⟨s, hs, by simp [hne]⟩

/-- C2: a matched, not-fully-cancelled live train is classified as a detour
exactly when some live stop canonicalizes (to a non-empty id) outside the
scheduled stop set — tolerating the border-station hotfix, under which
`"179221"` counts as scheduled whenever both `"179223"` and `"75507"` are;
and a live record all of whose mapped stops are scheduled (scheduled stops
missing from the live record included) never triggers a detour. -/
theorem C2_isOnDetour_spec (real : OperationTrain) (trip : Trip) (canon : String → String) :
    (isOnDetour real trip canon = true ↔
      ∃ s ∈ real.Stops, canon (itoa s.StopID) ≠ "" ∧
        canon (itoa s.StopID) ∉ trip.GetStopIDs ∧
        ¬(("179223" : String) ∈ trip.GetStopIDs ∧ ("75507" : String) ∈ trip.GetStopIDs ∧
          canon (itoa s.StopID) = "179221")) ∧
    ((∀ s ∈ real.Stops, canon (itoa s.StopID) = "" ∨ canon (itoa s.StopID) ∈ trip.GetStopIDs) →
      isOnDetour real trip canon = false) := by
  have main : isOnDetour real trip canon = true ↔
      ∃ s ∈ real.Stops, canon (itoa s.StopID) ≠ "" ∧
        canon (itoa s.StopID) ∉ trip.GetStopIDs ∧
        ¬(("179223" : String) ∈ trip.GetStopIDs ∧ ("75507" : String) ∈ trip.GetStopIDs ∧
          canon (itoa s.StopID) = "179221") := by
    unfold isOnDetour
    rw [List.any_eq_true]
    by_cases hb : ("179223" : String) ∈ trip.GetStopIDs ∧ ("75507" : String) ∈ trip.GetStopIDs
    · rw [if_pos (by simp [List.elem_iff, hb.1, hb.2])]
      constructor
      · rintro ⟨x, hx, hpx⟩
        obtain ⟨s, hs, hne, hxs⟩ := (mem_getAllRealStopIDs _ _ _).mp hx
        subst hxs
        refine ⟨s, hs, hne, ?_, ?_⟩
        · intro hmem
          simp [List.elem_iff, List.mem_append, hmem] at hpx
        · rintro ⟨-, -, h221⟩
          simp [List.elem_iff, List.mem_append, h221] at hpx
      · rintro ⟨s, hs, hne, hnmem, hn221⟩
        refine ⟨canon (itoa s.StopID), (mem_getAllRealStopIDs _ _ _).mpr ⟨s, hs, hne, rfl⟩, ?_⟩
        have h221 : canon (itoa s.StopID) ≠ "179221" := fun h => hn221 ⟨hb.1, hb.2, h⟩
        simp [List.elem_iff, List.mem_append, hnmem, h221]
    · rw [if_neg (by
        intro hcond
        rw [Bool.and_eq_true, List.elem_iff, List.elem_iff] at hcond
        exact hb ⟨hcond.1, hcond.2⟩)]
      constructor
      · rintro ⟨x, hx, hpx⟩
        obtain ⟨s, hs, hne, hxs⟩ := (mem_getAllRealStopIDs _ _ _).mp hx
        subst hxs
        refine ⟨s, hs, hne, ?_, fun h => hb ⟨h.1, h.2.1⟩⟩
        intro hmem
        simp [List.elem_iff, hmem] at hpx
      · rintro ⟨s, hs, hne, hnmem, -⟩
        refine ⟨canon (itoa s.StopID), (mem_getAllRealStopIDs _ _ _).mpr ⟨s, hs, hne, rfl⟩, ?_⟩
        simp [List.elem_iff, hnmem]
  refine ⟨main, ?_⟩
  intro hall
  cases hdet : isOnDetour real trip canon with
  | false => rfl
  | true =>
    obtain ⟨s, hs, hne, hnmem, -⟩ := main.mp hdet
    rcases hall s hs with h | h
    · exact absurd h hne
    · exact absurd h hnmem

/-- The length of a concatenation of per-train selector lists is the sum of
the per-train lengths. -/
theorem length_flatMap_selectors (l : List AffectedTrain) (f : AffectedTrain → List TripSelector) :
    (l.flatMap f).length = (l.map fun a => (f a).length).sum := by
  induction l with
  | nil => rfl
  | cons x xs ih => simp [List.flatMap_cons, ih]

/-- C10: `Alert` returns no fact exactly when no affected-train reference
resolves to any standard-trip identity; otherwise the single returned alert
carries the concatenation of the selectors resolved per affected train (its
length is the sum of the per-train selector counts, so two trains resolving
to three identities yield three selectors), the disruption's title and
message verbatim, and the id `"A_" ++ disruption id`. -/
theorem C10_Alert_spec (real : Disruption) (static : Package) :
    (matchAlert real static = none ↔
      ∀ train ∈ real.AffectedTrains, matchTripSelectors train.TrainID static = []) ∧
    ∀ a, matchAlert real static = some a →
      a.Trips = real.AffectedTrains.flatMap (fun train => matchTripSelectors train.TrainID static) ∧
      a.Trips.length =
        (real.AffectedTrains.map fun train => (matchTripSelectors train.TrainID static).length).sum ∧
      a.Title = real.Title ∧ a.Message = real.Message ∧ a.ID = "A_" ++ toString real.ID := by
  constructor
  · unfold matchAlert
    by_cases h : (real.AffectedTrains.flatMap fun train =>
        matchTripSelectors train.TrainID static) = []
    · simp only [h, List.isEmpty_nil, if_true]
      simp only [true_iff]
      exact List.flatMap_eq_nil_iff.mp h
    · rw [if_neg (by simpa [List.isEmpty_iff] using h)]
      simp only [false_iff, reduceCtorEq]
      intro hall
      exact h (List.flatMap_eq_nil_iff.mpr hall)
  · intro a ha
    unfold matchAlert at ha
    by_cases h : (real.AffectedTrains.flatMap fun train =>
        matchTripSelectors train.TrainID static) = []
    · rw [if_pos (by simpa [List.isEmpty_iff] using h)] at ha
      cases ha
    · rw [if_neg (by simpa [List.isEmpty_iff] using h)] at ha
      injection ha with ha
      subst ha
      exact ⟨rfl, length_flatMap_selectors _ _, rfl, rfl, rfl⟩

/-- Unfolds the Boolean validity check into its arithmetic content. -/
theorem isValid_iff (d : Date) : d.IsValid = true ↔
    1 ≤ d.M ∧ d.M ≤ 12 ∧ 1 ≤ d.D ∧ d.D ≤ DaysInMonth d.Y d.M := by
  simp [Date.IsValid, Bool.and_eq_true, decide_eq_true_eq, and_assoc]

/-- Every real month has at least 28 days. -/
theorem daysInMonth_ge (y m : Nat) (h1 : 1 ≤ m) (h2 : m ≤ 12) : 28 ≤ DaysInMonth y m := by
  unfold DaysInMonth
  split_ifs <;> omega

/-- December is 31 days long in every year. -/
theorem daysInMonth_12 (y : Nat) : DaysInMonth y 12 = 31 := by
  unfold DaysInMonth
  norm_num

/-- January is 31 days long in every year. -/
theorem daysInMonth_1 (y : Nat) : DaysInMonth y 1 = 31 := by
  unfold DaysInMonth
  norm_num

/-- A valid in-range date together with its `uint16` year bound, the
invariant every Go `Date` value satisfies. -/
def GoodDate (d : Date) : Prop := d.IsValid = true ∧ d.Y < 65536

/-- Stepping forward preserves validity and the year bound. -/
theorem goodDate_next (d : Date) (hd : GoodDate d) : GoodDate d.Next := by
  obtain ⟨y, m, dd⟩ := d
  obtain ⟨hv, hr⟩ := hd
  rw [isValid_iff] at hv
  dsimp only at hv hr
  obtain ⟨h1, h2, h3, h4⟩ := hv
  unfold Date.Next
  dsimp only
  split_ifs with ha hb
  · refine ⟨?_, by dsimp only; omega⟩
    rw [isValid_iff]
    dsimp only
    rw [daysInMonth_1]
    omega
  · have hm : m ≤ 11 := by
      by_contra h
      push_neg at h
      have hm12 : m = 12 := by omega
      subst hm12
      rw [daysInMonth_12] at hb
      exact ha ⟨rfl, hb⟩
    refine ⟨?_, by dsimp only; omega⟩
    rw [isValid_iff]
    dsimp only
    have := daysInMonth_ge y (m + 1) (by omega) (by omega)
    omega
  · refine ⟨?_, by dsimp only; omega⟩
    rw [isValid_iff]
    dsimp only
    omega
/-- Stepping backward preserves validity and the year bound. -/
theorem goodDate_prev (d : Date) (hd : GoodDate d) : GoodDate d.Previous := by
  obtain ⟨y, m, dd⟩ := d
  obtain ⟨hv, hr⟩ := hd
  rw [isValid_iff] at hv
  dsimp only at hv hr
  obtain ⟨h1, h2, h3, h4⟩ := hv
  unfold Date.Previous
  dsimp only
  split_ifs with ha hb
  · refine ⟨?_, by dsimp only; omega⟩
    rw [isValid_iff]
    dsimp only
    rw [daysInMonth_12]
    omega
  · have hm : 2 ≤ m := by
      rcases Nat.lt_or_ge m 2 with h | h
      · exact absurd ⟨by omega, hb⟩ ha
      · exact h
    refine ⟨?_, by dsimp only; omega⟩
    rw [isValid_iff]
    dsimp only
    have := daysInMonth_ge y (m - 1) (by omega) (by omega)
    omega
  · refine ⟨?_, by dsimp only; omega⟩
    rw [isValid_iff]
    dsimp only
    omega

/-- Stepping forward then backward is the identity on valid in-range dates. -/
theorem prev_next (d : Date) (hd : GoodDate d) : d.Next.Previous = d := by
  obtain ⟨y, m, dd⟩ := d
  obtain ⟨hv, hr⟩ := hd
  rw [isValid_iff] at hv
  dsimp only at hv hr
  obtain ⟨h1, h2, h3, h4⟩ := hv
  unfold Date.Next
  dsimp only
  split_ifs with ha hb
  · obtain ⟨ham, had⟩ := ha
    subst ham had
    unfold Date.Previous
    rw [if_pos ⟨rfl, rfl⟩]
    dsimp only
    have he : ((y + 1) % 65536 + 65535) % 65536 = y := by omega
    rw [he]
  · unfold Date.Previous
    rw [if_neg (by dsimp only; omega)]
    rw [if_pos rfl]
    dsimp only
    have he : m + 1 - 1 = m := by omega
    rw [he, ← hb]
  · unfold Date.Previous
    rw [if_neg (by dsimp only; omega)]
    rw [if_neg (by dsimp only; omega)]
    dsimp only
    have he : dd + 1 - 1 = dd := by omega
    rw [he]

/-- Stepping backward then forward is the identity on valid in-range dates. -/
theorem next_prev (d : Date) (hd : GoodDate d) : d.Previous.Next = d := by
  obtain ⟨y, m, dd⟩ := d
  obtain ⟨hv, hr⟩ := hd
  rw [isValid_iff] at hv
  dsimp only at hv hr
  obtain ⟨h1, h2, h3, h4⟩ := hv
  unfold Date.Previous
  dsimp only
  split_ifs with ha hb
  · obtain ⟨ham, had⟩ := ha
    subst ham had
    unfold Date.Next
    rw [if_pos ⟨rfl, rfl⟩]
    dsimp only
    have he : ((y + 65535) % 65536 + 1) % 65536 = y := by omega
    rw [he]
  · subst hb
    have hm : 2 ≤ m := by
      rcases Nat.lt_or_ge m 2 with h | h
      · exact absurd ⟨by omega, rfl⟩ ha
      · exact h
    unfold Date.Next
    rw [if_neg (by dsimp only; omega)]
    rw [if_pos rfl]
    dsimp only
    have he : m - 1 + 1 = m := by omega
    rw [he]
  · have hne : ¬(m = 12 ∧ dd - 1 = 31) := by
      rintro ⟨hm12, hd31⟩
      subst hm12
      rw [daysInMonth_12] at h4
      omega
    have hne2 : dd - 1 ≠ DaysInMonth y m := by omega
    unfold Date.Next
    rw [if_neg (by dsimp only; exact hne)]
    rw [if_neg (by dsimp only; exact hne2)]
    dsimp only
    have he : dd - 1 + 1 = dd := by omega
    rw [he]

/-- Iterating a map commutes with one application of it. -/
theorem iterDate_comm (f : Date → Date) (k : Nat) (d : Date) :
    iterDate f k (f d) = f (iterDate f k d) := by
  induction k generalizing d with
  | zero => rfl
  | succ n ih => simp only [iterDate, ih]

/-- Iterated forward stepping preserves the invariant. -/
theorem goodDate_iterNext (k : Nat) (d : Date) (hd : GoodDate d) :
    GoodDate (iterDate Date.Next k d) := by
  induction k with
  | zero => exact hd
  | succ n ih => exact goodDate_next _ ih

/-- Iterated backward stepping preserves the invariant. -/
theorem goodDate_iterPrev (k : Nat) (d : Date) (hd : GoodDate d) :
    GoodDate (iterDate Date.Previous k d) := by
  induction k with
  | zero => exact hd
  | succ n ih => exact goodDate_prev _ ih

/-- Going forward `k` days and then backward `k` days is the identity. -/
theorem iterPrev_iterNext (k : Nat) : ∀ d : Date, GoodDate d →
    iterDate Date.Previous k (iterDate Date.Next k d) = d := by
  induction k with
  | zero => intro d _; rfl
  | succ n ih =>
    intro d hd
    have h1 : iterDate Date.Next (n + 1) d = iterDate Date.Next n (Date.Next d) := by
      show Date.Next (iterDate Date.Next n d) = _
      rw [iterDate_comm]
    rw [h1]
    show Date.Previous (iterDate Date.Previous n (iterDate Date.Next n (Date.Next d))) = d
    rw [ih (Date.Next d) (goodDate_next d hd)]
    exact prev_next d hd

/-- Going backward `k` days and then forward `k` days is the identity. -/
theorem iterNext_iterPrev (k : Nat) : ∀ d : Date, GoodDate d →
    iterDate Date.Next k (iterDate Date.Previous k d) = d := by
  induction k with
  | zero => intro d _; rfl
  | succ n ih =>
    intro d hd
    have h1 : iterDate Date.Previous (n + 1) d = iterDate Date.Previous n (Date.Previous d) := by
      show Date.Previous (iterDate Date.Previous n d) = _
      rw [iterDate_comm]
    rw [h1]
    show Date.Next (iterDate Date.Next n (iterDate Date.Previous n (Date.Previous d))) = d
    rw [ih (Date.Previous d) (goodDate_prev d hd)]
    exact next_prev d hd

/-- C7: for every valid date (with its `uint16` year bound) and every integer
`n`, shifting by `n` days and then by `-n` days returns the original date,
across month, year and leap-year boundaries. -/
theorem C7_shifted_inverse (d : Date) (n : Int) (hv : d.IsValid = true)
    (hr : d.Y < 65536) : (d.Shifted n).Shifted (-n) = d := by
  have hd : GoodDate d := ⟨hv, hr⟩
  unfold Date.Shifted
  rcases lt_trichotomy n 0 with hn | hn | hn
  · rw [if_pos hn, if_neg (show ¬(-n < 0) by omega)]
    exact iterNext_iterPrev _ d hd
  · subst hn
    rfl
  · rw [if_neg (show ¬(n < 0) by omega), if_pos (show -n < 0 by omega), neg_neg]
    exact iterPrev_iterNext _ d hd

/-- The detour stop-time builder, characterized: it keeps exactly the live
stops that canonicalize to a non-empty id and are not cancelled, in their
given order, and numbers the survivors consecutively from the running
index. -/
theorem detourLoop_eq (canon : String → String) :
    ∀ (stops : List OperationTrainStop) (idx : Nat),
      detourLoop canon stops idx =
        (List.enumFrom idx (stops.filter fun s =>
            decide (canon (itoa s.StopID) ≠ "" ∧ s.Cancelled = false))).map
          fun p => { Sequence := (p.1 : Int), StopID := canon (itoa p.2.StopID),
                     Arrival := p.2.LiveArrival, Departure := p.2.LiveDeparture,
                     Cancelled := false, Confirmed := p.2.Confirmed,
                     Platform := "", Track := "" } := by
  intro stops
  induction stops with
  | nil => intro idx; rfl
  | cons s rest ih =>
    intro idx
    by_cases h : canon (itoa s.StopID) ≠ "" ∧ s.Cancelled = false
    · rw [detourLoop, if_pos h]
      rw [List.filter_cons_of_pos (by simpa using h)]
      rw [show List.enumFrom idx (s :: (rest.filter fun s =>
          decide (canon (itoa s.StopID) ≠ "" ∧ s.Cancelled = false))) =
        (idx, s) :: List.enumFrom (idx + 1) (rest.filter fun s =>
          decide (canon (itoa s.StopID) ≠ "" ∧ s.Cancelled = false)) from rfl]
      rw [List.map_cons]
      rw [ih]
    · rw [detourLoop, if_neg h]
      rw [List.filter_cons_of_neg (by simpa using h)]
      exact ih idx

/-- On the detour branch, `TripUpdate` maps each enumerated standard-trip
identity to one fact: the detour fact at index 0 and plain cancellations
elsewhere. -/
theorem matchTripUpdate_detour_eq (real : OperationTrain) (static : Package) (trip : Trip)
    (hm : matchTrip real.TrainID static = some trip)
    (hc : isEntireTripCancelled real = false)
    (hd : isOnDetour { real with Stops := sortStopsByActualSequence real.Stops } trip
      static.Stops = true) :
    matchTripUpdate real static = (trip.GetTripIDs.enum).map (fun p =>
      if p.1 = 0 then
        { newTripUpdate trip p.2 with
            Detour := true,
            StopTimes := getDetourStopTimeUpdates (sortStopsByActualSequence real.Stops)
              static.Stops }
      else { newTripUpdate trip p.2 with Cancelled := true }) := by
  unfold matchTripUpdate
  rw [hm]
  simp only [hc, Bool.false_eq_true, if_false, hd, if_true]

/-- C3: for a matched, not-fully-cancelled live train classified as a
detour, `TripUpdate` emits exactly one fact per standard-trip identity (in
order of first appearance): the first carries `detour = true` and stop-times
rebuilt from the live stops sorted by actual sequence — only stops that map
to a canonical id and are not cancelled, renumbered consecutively from 0 —
and every other fact is a bare cancellation with no stop-time detail. -/
theorem C3_tripUpdate_detour_spec (real : OperationTrain) (static : Package) (trip : Trip)
    (hm : matchTrip real.TrainID static = some trip)
    (hc : isEntireTripCancelled real = false)
    (hd : isOnDetour { real with Stops := sortStopsByActualSequence real.Stops } trip
      static.Stops = true) :
    (matchTripUpdate real static).length = trip.GetTripIDs.length ∧
    (∀ u, (matchTripUpdate real static)[0]? = some u →
      u.Detour = true ∧ u.Cancelled = false ∧
      some u.Selector.TripID = trip.GetTripIDs[0]? ∧
      u.StopTimes = (List.enumFrom 0 ((sortStopsByActualSequence real.Stops).filter fun s =>
          decide (static.Stops (itoa s.StopID) ≠ "" ∧ s.Cancelled = false))).map
        fun p => { Sequence := (p.1 : Int), StopID := static.Stops (itoa p.2.StopID),
                   Arrival := p.2.LiveArrival, Departure := p.2.LiveDeparture,
                   Cancelled := false, Confirmed := p.2.Confirmed,
                   Platform := "", Track := "" }) ∧
    (∀ j u, 1 ≤ j → (matchTripUpdate real static)[j]? = some u →
      u.Cancelled = true ∧ u.Detour = false ∧ u.StopTimes = [] ∧
      some u.Selector.TripID = trip.GetTripIDs[j]?) := by
  rw [matchTripUpdate_detour_eq real static trip hm hc hd]
  refine ⟨by simp, ?_, ?_⟩
  · intro u hu
    rw [List.getElem?_map, List.getElem?_enum] at hu
    cases h0 : trip.GetTripIDs[0]? with
    | none => rw [h0] at hu; cases hu
    | some tid =>
      rw [h0] at hu
      simp only [Option.map] at hu
      injection hu with hu
      subst hu
      refine ⟨rfl, rfl, rfl, ?_⟩
      show getDetourStopTimeUpdates (sortStopsByActualSequence real.Stops) static.Stops = _
      unfold getDetourStopTimeUpdates
      exact detourLoop_eq static.Stops (sortStopsByActualSequence real.Stops) 0
  · intro j u hj hu
    rw [List.getElem?_map, List.getElem?_enum] at hu
    cases h0 : trip.GetTripIDs[j]? with
    | none => rw [h0] at hu; cases hu
    | some tid =>
      rw [h0] at hu
      simp only [Option.map] at hu
      injection hu with hu
      subst hu
      have hj0 : ((j, tid) : Nat × String).1 ≠ 0 := by dsimp only; omega
      rw [if_neg hj0]
      exact ⟨rfl, rfl, rfl, rfl⟩

theorem getTripIDs_foldl_mono : ∀ (sts : List StopTime) (acc : List String) (x : String),
    x ∈ acc → x ∈ sts.foldl
      (fun ids st => if ids.contains st.GTFSTripID then ids else ids ++ [st.GTFSTripID]) acc := by
  intro sts
  induction sts with
  | nil => intro acc x hx; exact hx
  | cons st rest ih =>
    intro acc x hx
    rw [List.foldl_cons]
    apply ih
    by_cases h : acc.contains st.GTFSTripID = true
    · rw [if_pos h]; exact hx
    · rw [if_neg h]; exact List.mem_append.mpr (Or.inl hx)

theorem getTripIDs_foldl_mem : ∀ (sts : List StopTime) (acc : List String) (st : StopTime),
    st ∈ sts → st.GTFSTripID ∈ sts.foldl
      (fun ids st => if ids.contains st.GTFSTripID then ids else ids ++ [st.GTFSTripID]) acc := by
  intro sts
  induction sts with
  | nil => intro acc st hst; cases hst
  | cons s rest ih =>
    intro acc st hst
    rw [List.foldl_cons]
    rcases List.mem_cons.mp hst with h | h
    · subst h
      apply getTripIDs_foldl_mono
      by_cases hc : acc.contains st.GTFSTripID = true
      · rw [if_pos hc]; exact List.elem_iff.mp hc
      · rw [if_neg hc]; exact List.mem_append.mpr (Or.inr (by simp))
    · exact ih _ st h

theorem getTripIDs_foldl_nodup : ∀ (sts : List StopTime) (acc : List String), acc.Nodup →
    (sts.foldl
      (fun ids st => if ids.contains st.GTFSTripID then ids else ids ++ [st.GTFSTripID])
      acc).Nodup := by
  intro sts
  induction sts with
  | nil => intro acc h; exact h
  | cons st rest ih =>
    intro acc h
    rw [List.foldl_cons]
    apply ih
    by_cases hc : acc.contains st.GTFSTripID = true
    · rw [if_pos hc]; exact h
    · rw [if_neg hc]
      have hnm : st.GTFSTripID ∉ acc := fun hmem => hc (List.elem_iff.mpr hmem)
      rw [List.nodup_append]
      exact ⟨h, List.nodup_singleton _, by
        intro a ha hb
        rw [List.mem_singleton] at hb
        exact hnm (hb ▸ ha)⟩

/-- Every stop-time's GTFS trip id occurs in `GetTripIDs`. -/
theorem mem_GetTripIDs (t : Trip) (st : StopTime) (h : st ∈ t.StopTimes) :
    st.GTFSTripID ∈ t.GetTripIDs :=
  getTripIDs_foldl_mem t.StopTimes [] st h

/-- `GetTripIDs` de-duplicates: the result has no repeats. -/
theorem GetTripIDs_nodup (t : Trip) : t.GetTripIDs.Nodup :=
  getTripIDs_foldl_nodup t.StopTimes [] List.nodup_nil
/-- Appending one stop-time update to any in-range slot raises the total
stop-time count by one. -/
theorem modify_sum (x : StopTimeUpdate) :
    ∀ (ups : List TripUpdate) (i : Nat), i < ups.length →
      ((ups.modify (fun u => { u with StopTimes := u.StopTimes ++ [x] }) i).map
        fun u => u.StopTimes.length).sum =
      ((ups.map fun u => u.StopTimes.length).sum) + 1 := by
  intro ups
  induction ups with
  | nil => intro i h; simp at h
  | cons u rest ih =>
    intro i hi
    cases i with
    | zero =>
      rw [show (u :: rest).modify
          (fun u => { u with StopTimes := u.StopTimes ++ [x] }) 0 =
        { u with StopTimes := u.StopTimes ++ [x] } :: rest from rfl]
      show ((u.StopTimes ++ [x]).length + (rest.map fun u => u.StopTimes.length).sum) =
        (u.StopTimes.length + (rest.map fun u => u.StopTimes.length).sum) + 1
      rw [List.length_append]
      simp only [List.length_singleton]
      omega
    | succ n =>
      rw [show (u :: rest).modify
          (fun u => { u with StopTimes := u.StopTimes ++ [x] }) (n + 1) =
        u :: rest.modify (fun u => { u with StopTimes := u.StopTimes ++ [x] }) n from rfl]
      simp only [List.map_cons, List.sum_cons]
      rw [ih n (by simpa using hi)]
      omega

/-- The normal-update fold never changes how many facts there are. -/
theorem normalFold_length (tids : List String) (stops : List OperationTrainStop) :
    ∀ (sts : List StopTime) (ups : List TripUpdate),
      (sts.foldl (normalUpdateStep tids stops) ups).length = ups.length := by
  intro sts
  induction sts with
  | nil => intro ups; rfl
  | cons st rest ih =>
    intro ups
    rw [List.foldl_cons]
    rw [ih]
    unfold normalUpdateStep
    cases hr : realStopByPLKSequence stops st.PLKSequence with
    | none => rfl
    | some r => exact List.length_modify _ _ _
/-- The per-slot content of the normal-update fold: slot `j` accumulates, in
stop-time order, one update for every scheduled stop-time that belongs to
trip id `j` and has a live stop with the same PLK sequence number. -/
theorem normalFold_getElem (tids : List String) (stops : List OperationTrainStop)
    (hnd : tids.Nodup) :
    ∀ (sts : List StopTime), (∀ st ∈ sts, st.GTFSTripID ∈ tids) →
    ∀ (ups : List TripUpdate), ups.length = tids.length →
    ∀ (j : Nat) (hj : j < tids.length),
      (sts.foldl (normalUpdateStep tids stops) ups)[j]? =
        (ups[j]?).map fun u =>
          { u with StopTimes := u.StopTimes ++ (sts.filterMap fun st =>
              if st.GTFSTripID = tids.get ⟨j, hj⟩ then
                (realStopByPLKSequence stops st.PLKSequence).map (mkNormalStopTimeUpdate st)
              else none) } := by
  intro sts
  induction sts with
  | nil =>
    intro hmem ups hlen j hj
    rw [List.foldl_nil, List.filterMap_nil]
    cases hu : ups[j]? <;> simp
  | cons st rest ih =>
    intro hmem ups hlen j hj
    rw [List.foldl_cons]
    cases hr : realStopByPLKSequence stops st.PLKSequence with
    | none =>
      have hstep : normalUpdateStep tids stops ups st = ups := by
        unfold normalUpdateStep
        rw [hr]
      rw [hstep]
      rw [ih (fun s hs => hmem s (List.mem_cons.mpr (Or.inr hs))) ups hlen j hj]
      rw [List.filterMap_cons_none (by
        split_ifs
        · rw [hr]; rfl
        · rfl)]
    | some r =>
      have hstep : normalUpdateStep tids stops ups st =
          ups.modify (fun u => { u with
            StopTimes := u.StopTimes ++ [mkNormalStopTimeUpdate st r] })
            (tids.indexOf st.GTFSTripID) := by
        unfold normalUpdateStep
        rw [hr]
      rw [hstep]
      have hist : st.GTFSTripID ∈ tids := hmem st (List.mem_cons.mpr (Or.inl rfl))
      have hilt : tids.indexOf st.GTFSTripID < tids.length := List.indexOf_lt_length.mpr hist
      have hmid := ih (fun s hs => hmem s (List.mem_cons.mpr (Or.inr hs)))
        (ups.modify (fun u => { u with
          StopTimes := u.StopTimes ++ [mkNormalStopTimeUpdate st r] })
          (tids.indexOf st.GTFSTripID))
        (by rw [List.length_modify]; exact hlen) j hj
      rw [hmid]
      rw [List.getElem?_modify]
      by_cases hij : tids.indexOf st.GTFSTripID = j
      · have hfin : (⟨tids.indexOf st.GTFSTripID, hilt⟩ : Fin tids.length) = ⟨j, hj⟩ :=
          Fin.ext hij
        have hgi : tids.get ⟨j, hj⟩ = st.GTFSTripID := by
          rw [← hfin]
          exact List.indexOf_get hilt
        rw [List.filterMap_cons_some (by rw [if_pos hgi.symm, hr]; rfl)]
        cases hu : ups[j]? with
        | none => rfl
        | some u => simp [hij, List.append_assoc]
      · have hne : st.GTFSTripID ≠ tids.get ⟨j, hj⟩ := by
          intro he
          apply hij
          have := List.get_indexOf hnd ⟨j, hj⟩
          rw [← he] at this
          exact this
        rw [List.filterMap_cons_none (by rw [if_neg hne])]
        cases hu : ups[j]? with
        | none => rfl
        | some u => simp [hij]
/-- The normal-update fold emits exactly one stop-time update per scheduled
stop-time whose PLK sequence has a live counterpart. -/
theorem normalFold_total (tids : List String) (stops : List OperationTrainStop) :
    ∀ (sts : List StopTime), (∀ st ∈ sts, st.GTFSTripID ∈ tids) →
    ∀ (ups : List TripUpdate), ups.length = tids.length →
      ((sts.foldl (normalUpdateStep tids stops) ups).map fun u => u.StopTimes.length).sum =
        ((ups.map fun u => u.StopTimes.length).sum) +
        (sts.filter fun st =>
          (realStopByPLKSequence stops st.PLKSequence).isSome).length := by
  intro sts
  induction sts with
  | nil => intro hmem ups hlen; simp
  | cons st rest ih =>
    intro hmem ups hlen
    rw [List.foldl_cons]
    cases hr : realStopByPLKSequence stops st.PLKSequence with
    | none =>
      have hstep : normalUpdateStep tids stops ups st = ups := by
        unfold normalUpdateStep
        rw [hr]
      rw [hstep, ih (fun s hs => hmem s (List.mem_cons.mpr (Or.inr hs))) ups hlen]
      rw [List.filter_cons_of_neg (by simp [hr])]
    | some r =>
      have hstep : normalUpdateStep tids stops ups st =
          ups.modify (fun u => { u with
            StopTimes := u.StopTimes ++ [mkNormalStopTimeUpdate st r] })
            (tids.indexOf st.GTFSTripID) := by
        unfold normalUpdateStep
        rw [hr]
      rw [hstep]
      have hist : st.GTFSTripID ∈ tids := hmem st (List.mem_cons.mpr (Or.inl rfl))
      have hilt : tids.indexOf st.GTFSTripID < ups.length := by
        rw [hlen]
        exact List.indexOf_lt_length.mpr hist
      rw [ih (fun s hs => hmem s (List.mem_cons.mpr (Or.inr hs))) _
        (by rw [List.length_modify]; exact hlen)]
      rw [modify_sum (mkNormalStopTimeUpdate st r) ups _ hilt]
      rw [List.filter_cons_of_pos (by simp [hr])]
      rw [List.length_cons]
      omega

/-- On the normal branch, `TripUpdate` is the fold of the normal-update loop
over the scheduled stop-times, starting from one bare fact per standard-trip
identity. -/
theorem matchTripUpdate_normal_eq (real : OperationTrain) (static : Package) (trip : Trip)
    (hm : matchTrip real.TrainID static = some trip)
    (hc : isEntireTripCancelled real = false)
    (hd : isOnDetour { real with Stops := sortStopsByActualSequence real.Stops } trip
      static.Stops = false) :
    matchTripUpdate real static =
      trip.StopTimes.foldl
        (normalUpdateStep trip.GetTripIDs (sortStopsByActualSequence real.Stops))
        (trip.GetTripIDs.map (newTripUpdate trip)) := by
  unfold matchTripUpdate
  rw [hm]
  simp only [hc, Bool.false_eq_true, if_false, hd]
/-- C4, amended: in the normal-update path of a matched, not-fully-cancelled,
non-detour train, the number of emitted stop-time updates equals the number
of scheduled stop-times whose operator-native (PLK) sequence number has a
matching live stop — a stop-time with no live counterpart produces nothing —
and every emitted stop-time update stems from such a pair: when the live
stop is not cancelled the update carries exactly the static schedule's
platform and track, and when it is cancelled the update is a bare
cancellation with empty platform and track. -/
theorem C4_tripUpdate_normal_spec (real : OperationTrain) (static : Package) (trip : Trip)
    (hm : matchTrip real.TrainID static = some trip)
    (hc : isEntireTripCancelled real = false)
    (hd : isOnDetour { real with Stops := sortStopsByActualSequence real.Stops } trip
      static.Stops = false) :
    (((matchTripUpdate real static).map fun u => u.StopTimes.length).sum =
      (trip.StopTimes.filter fun st =>
        (realStopByPLKSequence (sortStopsByActualSequence real.Stops)
          st.PLKSequence).isSome).length) ∧
    (∀ u ∈ matchTripUpdate real static, ∀ stu ∈ u.StopTimes,
      ∃ st ∈ trip.StopTimes, ∃ r,
        realStopByPLKSequence (sortStopsByActualSequence real.Stops) st.PLKSequence = some r ∧
        stu.Sequence = st.GTFSSequence ∧
        ((r.Cancelled = true ∧ stu.Cancelled = true ∧ stu.Platform = "" ∧ stu.Track = "") ∨
         (r.Cancelled = false ∧ stu.Cancelled = false ∧ stu.Platform = st.Platform ∧
          stu.Track = st.Track))) := by
  rw [matchTripUpdate_normal_eq real static trip hm hc hd]
  constructor
  · rw [normalFold_total trip.GetTripIDs (sortStopsByActualSequence real.Stops) trip.StopTimes
      (fun st hst => mem_GetTripIDs trip st hst) (trip.GetTripIDs.map (newTripUpdate trip))
      (by rw [List.length_map])]
    have hzero : ((trip.GetTripIDs.map (newTripUpdate trip)).map
        fun u => u.StopTimes.length).sum = 0 := by
      rw [List.map_map]
      have : ((fun u => u.StopTimes.length) ∘ newTripUpdate trip) = fun _ => 0 := rfl
      rw [this]
      simp
    rw [hzero]
    omega
  · intro u hu stu hstu
    obtain ⟨j, hj, hju⟩ := List.getElem_of_mem hu
    have hjlen : j < trip.GetTripIDs.length := by
      have := hj
      rw [normalFold_length, List.length_map] at this
      exact this
    have hsome : (trip.StopTimes.foldl
        (normalUpdateStep trip.GetTripIDs (sortStopsByActualSequence real.Stops))
        (trip.GetTripIDs.map (newTripUpdate trip)))[j]? = some u := by
      rw [List.getElem?_eq_getElem hj, hju]
    rw [normalFold_getElem trip.GetTripIDs (sortStopsByActualSequence real.Stops)
      (GetTripIDs_nodup trip) trip.StopTimes (fun st hst => mem_GetTripIDs trip st hst)
      (trip.GetTripIDs.map (newTripUpdate trip)) (by rw [List.length_map]) j hjlen] at hsome
    rw [List.getElem?_map, List.getElem?_eq_getElem hjlen] at hsome
    simp only [Option.map] at hsome
    injection hsome with hsome
    have hstu2 : stu ∈ trip.StopTimes.filterMap fun st =>
        if st.GTFSTripID = trip.GetTripIDs.get ⟨j, hjlen⟩ then
          (realStopByPLKSequence (sortStopsByActualSequence real.Stops)
            st.PLKSequence).map (mkNormalStopTimeUpdate st)
        else none := by
      rw [← hsome] at hstu
      exact hstu
    obtain ⟨st, hst, hfst⟩ := List.mem_filterMap.mp hstu2
    by_cases hcond : st.GTFSTripID = trip.GetTripIDs.get ⟨j, hjlen⟩
    · rw [if_pos hcond] at hfst
      cases hlr : realStopByPLKSequence (sortStopsByActualSequence real.Stops)
          st.PLKSequence with
      | none => rw [hlr] at hfst; cases hfst
      | some r =>
        rw [hlr] at hfst
        simp only [Option.map] at hfst
        injection hfst with hfst
        refine ⟨st, hst, r, hlr, ?_, ?_⟩
        · rw [← hfst]
          unfold mkNormalStopTimeUpdate
          split_ifs <;> rfl
        · cases hrc : r.Cancelled with
          | true =>
            left
            rw [← hfst]
            unfold mkNormalStopTimeUpdate
            simp [hrc]
          | false =>
            right
            rw [← hfst]
            unfold mkNormalStopTimeUpdate
            simp [hrc]
    · rw [if_neg hcond] at hfst
      cases hfst

/-- C4, counterexample: in the normal-update path, the live stop at PLK
sequence 1 is cancelled, and the emitted stop-time update for it carries
empty platform and track even though the static schedule records platform
`"2"` and track `"3"` for that stop-time — so "the platform and track equal
the static schedule's values" fails for cancelled stop-time updates. -/
theorem C4_platform_counterexample :
    (matchTripUpdate fixtureReal fixtureStatic).map
        (fun u => u.StopTimes.map fun stu =>
          (stu.Sequence, stu.Cancelled, stu.Platform, stu.Track)) =
      [[(0, true, "", ""), (1, false, "4", "5")]] ∧
    fixtureTrip.StopTimes.map
        (fun st => (st.GTFSSequence, st.PLKSequence, st.Platform, st.Track)) =
      [(0, 1, "2", "3"), (1, 2, "4", "5")] ∧
    fixtureReal.Stops.map (fun s => (s.PlannedSequence, s.Cancelled)) =
      [(1, true), (2, false)] ∧
    ("" : String) ≠ "2" := by
  refine ⟨by decide, by decide, by decide, by decide⟩

/-! ## Witnesses -/

/-- Witness for C2 at the fixtures: every mapped stop of `fixtureReal` is
scheduled on `fixtureTrip`, so no detour; and `fixtureDetourReal` visits the
unscheduled `S3`, so it is a detour. -/
theorem C2_isOnDetour_spec_witness :
    isOnDetour fixtureReal fixtureTrip fixtureCanon = false ∧
    isOnDetour fixtureDetourReal fixtureSplitTrip fixtureCanon = true := by
  constructor
  · exact (C2_isOnDetour_spec fixtureReal fixtureTrip fixtureCanon).2 (by decide)
  · exact (C2_isOnDetour_spec fixtureDetourReal fixtureSplitTrip fixtureCanon).1.mpr
      ⟨stopC, by decide, by decide, by decide, by decide⟩

/-- Witness for C3 at the fixtures: the detoured split run yields exactly
two facts, one per standard-trip identity. -/
theorem C3_tripUpdate_detour_spec_witness :
    (matchTripUpdate fixtureDetourReal fixtureStatic).length = 2 := by
  have h := (C3_tripUpdate_detour_spec fixtureDetourReal fixtureStatic fixtureSplitTrip
    (by decide) (by decide) (by decide)).1
  rw [h]
  decide

/-- Witness for C4 at the fixtures: both scheduled stop-times have live
counterparts, so exactly two stop-time updates are emitted in total. -/
theorem C4_tripUpdate_normal_spec_witness :
    ((matchTripUpdate fixtureReal fixtureStatic).map fun u => u.StopTimes.length).sum = 2 := by
  have h := (C4_tripUpdate_normal_spec fixtureReal fixtureStatic fixtureTrip
    (by decide) (by decide) (by decide)).1
  rw [h]
  decide

/-- Witness for C5: with period 5 and a third consecutive failure the wait
is `5^2 = 25`, and a success resets the failure counter. -/
theorem C5_backoff_spec_witness :
    (Backoff.EndRun ⟨5, 2, 6, 100, 0⟩ false).nextRun - 100 = 25 ∧
    (Backoff.EndRun ⟨5, 2, 6, 100, 0⟩ true).Failures = 0 := by
  constructor
  · have h := (C5_backoff_spec.1 ⟨5, 2, 6, 100, 0⟩ 3 (by norm_num) (by norm_num) rfl rfl).2.2
      (by norm_num) (by norm_num)
    have h2 : ((5 : Int)) ^ min (3 - 1) 6 = 25 := by norm_num
    rw [h2] at h
    exact h
  · exact (C5_backoff_spec.2 ⟨5, 2, 6, 100, 0⟩).1

/-- Witness for C6: the group `{"A", "A_BUS", "A_RAIL"}` canonicalizes to
`"A_RAIL"` through the theorem, in its given order. -/
theorem C6_pickCanonical_spec_witness :
    pickCanonicalStopID ["A", "A_BUS", "A_RAIL"] = some "A_RAIL" :=
  C6_pickCanonical_spec.2 ["A", "A_BUS", "A_RAIL"] (List.Perm.refl _)

/-- Witness for C7: a leap-day date survives a 370-day round trip. -/
theorem C7_shifted_inverse_witness :
    ((Date.mk 2024 2 29).Shifted 370).Shifted (-370) = Date.mk 2024 2 29 :=
  C7_shifted_inverse ⟨2024, 2, 29⟩ 370 (by decide) (by decide)

/-- Witness for C8: HTTP 500 is retryable, and a source that always reports
a further page exhausts a three-page budget with `ErrTooManyPages`. -/
theorem C8_canBackoff_spec_witness :
    canBackoff (DriverError.http "u" "s" 500) = true ∧
    fetchOperations (fun _ => .ok { Trains := [], HasNext := true }) 3 =
      .error .tooManyPages := by
  constructor
  · exact (C8_canBackoff_spec.1 (DriverError.http "u" "s" 500)).mpr
      ⟨"u", "s", 500, rfl, Or.inr (Or.inl rfl)⟩
  · exact (C8_canBackoff_spec.2 (fun _ => .ok { Trains := [], HasNext := true })
      (fun p => ⟨{ Trains := [], HasNext := true }, rfl, rfl⟩) 3).1

/-- Witness for C9 at the concrete output path. -/
theorem C9_dump_spec_witness :
    getTempOutputPath "polish_trains.pb" ≠ "polish_trains.pb" ∧
    dumpJSONFileOps "polish_trains.pb" = [.create "polish_trains.pb"] :=
  ⟨(C9_dump_spec "polish_trains.pb").2.1, (C9_dump_spec "polish_trains.pb").2.2.2⟩

/-- Witness for C10: the fixture disruption's two affected trains resolve to
three standard-trip identities in total, and the alert carries exactly three
selectors. -/
theorem C10_Alert_spec_witness :
    (matchAlert fixtureDisruption fixtureStatic).map (fun a => a.Trips.length) = some 3 := by
  cases hma : matchAlert fixtureDisruption fixtureStatic with
  | none =>
    exfalso
    have h0 := (C10_Alert_spec fixtureDisruption fixtureStatic).1.mp hma
    have h1 := h0 ⟨⟨1, 1, fixtureDate⟩, 0, 0⟩ (by decide)
    exact absurd h1 (by decide)
  | some a =>
    obtain ⟨-, hlen, -⟩ := (C10_Alert_spec fixtureDisruption fixtureStatic).2 a hma
    rw [Option.map]
    rw [hlen]
    decide

end PolishTrains
